import Mathlib

/-!
Verification of the non-parametric inference engine of `cogmood_analysis`
(`src/cogmood_analysis/nonparam.py`): the permutation procedure
`run_reg_perms` and the bootstrap procedure `run_reg_boots`.

Shallow-embedding conventions:
* Machine floating point is modelled by exact rational arithmetic (`ℚ`).
  The square root used inside t-statistics (`np.sqrt`) and standard
  deviations (`np.std`) is kept abstract as a parameter `s : ℚ → ℚ`;
  every property proved below holds for every interpretation of `s`.
* A pandas `DataFrame` row is a subject; its pandas index label (the row
  identifier) is an integer `ids i`.  `patsy.dmatrices` builds design
  matrices positionally from the named columns, ignoring the index, which
  is how `designReduced`/`designFull` are defined.
* The fixed formula `ss ~ 1 + age + age2 + sex + age:sex + age2:sex [+ tp]`
  gives a 6-column reduced design and a 7-column full design, the test
  predictor being the last column (`tpIdx`).
* `np.linalg.inv` and the least-squares solve inside the external
  `statsmodels` OLS fit are modelled through `invQ` (inverse via the
  adjugate; it agrees with the true inverse whenever the determinant is
  non-zero, which is the situation in which a float fit succeeds).
* Permutation index entries are numpy integers used positionally; they are
  modelled as naturals (numpy's negative-index wrap-around is not
  exercised by any claim).  Bootstrap index entries are pandas labels
  (`ℤ`), resolved through `lookupRow` exactly as `DataFrame.loc` resolves
  labels.
* The Python `for` loops are embedded as folds over an explicit loop
  state (`PermLoopState`, `BootLoopState`) so that the read-only nature of
  the shared dataset and precomputed matrices during the loop is a
  provable statement rather than a modelling assumption.
* The string metadata fields `task`/`parameter`/`score` of the result
  dicts are passed through untouched by the Python code and are omitted
  from the embedded result records.
-/

open Matrix BigOperators

/-- A dataset handed to the engine: one row per subject, with the pandas
index label `ids`, the fixed covariates `age`, `age2`, `sex`, the test
predictor column `tp` and the response (score) column `ss`.  All columns
are numeric, as required by the formula. -/
structure DataSet (n : ℕ) where
  ids : Fin n → ℤ
  age : Fin n → ℚ
  age2 : Fin n → ℚ
  sex : Fin n → ℚ
  tp : Fin n → ℚ
  ss : Fin n → ℚ

/-- The reduced design matrix built by patsy from
`ss ~ 1 + age + age2 + sex + age:sex + age2:sex`:
columns Intercept, age, age2, sex, age:sex, age2:sex. -/
def designReduced {n : ℕ} (d : DataSet n) : Matrix (Fin n) (Fin 6) ℚ :=
  Matrix.of fun i j =>
    match j.val with
    | 0 => 1
    | 1 => d.age i
    | 2 => d.age2 i
    | 3 => d.sex i
    | 4 => d.age i * d.sex i
    | _ => d.age2 i * d.sex i

/-- The full design matrix built by patsy from
`ss ~ 1 + age + age2 + sex + age:sex + age2:sex + tp`: the reduced design
with the test-predictor column appended. -/
def designFull {n : ℕ} (d : DataSet n) : Matrix (Fin n) (Fin 7) ℚ :=
  Matrix.of fun i j =>
    match j.val with
    | 0 => 1
    | 1 => d.age i
    | 2 => d.age2 i
    | 3 => d.sex i
    | 4 => d.age i * d.sex i
    | 5 => d.age2 i * d.sex i
    | _ => d.tp i

/-- `X.columns.get_loc(tp)`: the position of the test-predictor column in
the full design (patsy appends the extra term last). -/
def tpIdx : Fin 7 := ⟨6, by decide⟩

/-- Matrix inverse via the adjugate, the model of `np.linalg.inv` (and of
the solve inside the external OLS fit).  It agrees with the true inverse
whenever the determinant is non-zero. -/
def invQ {k : ℕ} (A : Matrix (Fin k) (Fin k) ℚ) : Matrix (Fin k) (Fin k) ℚ :=
  A.det⁻¹ • A.adjugate

/-- Modelled from the spec: the linear-regression core (spec section 4.2),
the OLS coefficient estimate `β = (XᵀX)⁻¹Xᵀy`.  The statsmodels fit that
computes this in the Python source is external library code. -/
def olsBeta {n p : ℕ} (X : Matrix (Fin n) (Fin p) ℚ) (y : Fin n → ℚ) :
    Fin p → ℚ :=
  invQ (Xᵀ * X) *ᵥ (Xᵀ *ᵥ y)

/-- Residual sum of squares of the coefficient vector `b` for the design
`X` and response `y`. -/
def rss {n p : ℕ} (X : Matrix (Fin n) (Fin p) ℚ) (y : Fin n → ℚ)
    (b : Fin p → ℚ) : ℚ :=
  ∑ i, (y i - (X *ᵥ b) i) ^ 2

/-- The residual sum of squares of the OLS fit (`model.ssr` in the
source). -/
def ssrOf {n p : ℕ} (X : Matrix (Fin n) (Fin p) ℚ) (y : Fin n → ℚ) : ℚ :=
  rss X y (olsBeta X y)

/-- Modelled from the spec: the t-statistic of coefficient `j` of a fresh
OLS fit of `y` on `X` (spec section 4.2): standard error from the residual
variance `RSS/(n-p)` and the diagonal of `(XᵀX)⁻¹`; the statsmodels
`fit().tvalues` that computes this is external library code.  `s` is the
abstract square root. -/
def olsTStat {n p : ℕ} (s : ℚ → ℚ) (X : Matrix (Fin n) (Fin p) ℚ)
    (j : Fin p) (y : Fin n → ℚ) : ℚ :=
  let G := invQ (Xᵀ * X)
  let beta := G *ᵥ (Xᵀ *ᵥ y)
  let residuals := fun i => y i - (X *ᵥ beta) i
  let mse := (∑ i, residuals i ^ 2) / ((n : ℚ) - (p : ℚ))
  let se := s (mse * G j j)
  beta j / se

/-- The body of the vectorised permutation loop of `run_reg_perms`
(nonparam.py lines 66-74): direct regression computation from the
precomputed `XtX_inv` passed in as `G`:
`beta = XtX_inv @ (X.T @ y_star)`, residuals, `mse`, `se`, t-statistic. -/
def permTStar {n p : ℕ} (s : ℚ → ℚ) (X : Matrix (Fin n) (Fin p) ℚ)
    (G : Matrix (Fin p) (Fin p) ℚ) (j : Fin p) (ystar : Fin n → ℚ) : ℚ :=
  let beta := G *ᵥ (Xᵀ *ᵥ ystar)
  let residuals := fun i => ystar i - (X *ᵥ beta) i
  let mse := (∑ i, residuals i ^ 2) / ((n : ℚ) - (p : ℚ))
  let se := s (mse * G j j)
  beta j / se

/-- The errors that can escape the permutation procedure's loop:
`indexOOB` models the numpy `IndexError` raised by
`residuals_reduced[perm_indexes[:, pid]]` when an entry is out of range,
and `broadcastMismatch` the numpy `ValueError` raised by
`fitted_reduced + permuted_residuals` when the column length can not be
broadcast against the `n` fitted values (length neither `n` nor 1). -/
inductive PermError where
  | indexOOB
  | broadcastMismatch
deriving DecidableEq

/-- The check a single permutation column undergoes when the loop body
executes on it: fancy indexing first (out-of-range raises), then the
broadcast of the addition (length `n` or 1 succeeds). -/
def colCheck (n : ℕ) (col : List ℕ) : Option PermError :=
  if col.any (fun k => decide (n ≤ k)) then some PermError.indexOOB
  else if col.length = n ∨ col.length = 1 then none
  else some PermError.broadcastMismatch

/-- The first error the loop hits, scanning columns in order (`none` when
every column passes and the call returns a result). -/
def firstColError (n : ℕ) (cols : List (List ℕ)) : Option PermError :=
  cols.findSome? (colCheck n)

/-- The synthetic response `y_star = fitted_reduced +
residuals_reduced[perm_indexes[:, pid]]` of one loop iteration, for a
column that passed `colCheck`: entries index the residual vector
positionally (a length-1 column broadcasts its single entry). -/
def ystarCol {n : ℕ} (fitted resid : Fin n → ℚ) (col : List ℕ) :
    Fin n → ℚ := fun i =>
  let k := col.getD (if col.length = 1 then 0 else i.val) 0
  fitted i + resid ⟨k % n, Nat.mod_lt k i.pos⟩

/-- The state threaded through the permutation loop: the shared dataset,
the full design matrix, the precomputed `XtX_inv`, the reduced-model
fitted values and residuals (all read-only), and the growing `t_stars`
array. -/
structure PermLoopState (n : ℕ) where
  dat : DataSet n
  Xf : Matrix (Fin n) (Fin 7) ℚ
  G : Matrix (Fin 7) (Fin 7) ℚ
  fitted : Fin n → ℚ
  resid : Fin n → ℚ
  tStars : List ℚ

/-- One iteration of the permutation loop: build `y_star`, compute the
shortcut t-statistic from the precomputed inverse, append it.  Nothing
else in the state is written. -/
def permStep {n : ℕ} (s : ℚ → ℚ) (st : PermLoopState n) (col : List ℕ) :
    PermLoopState n :=
  { st with
    tStars := st.tStars ++
      [permTStar s st.Xf st.G tpIdx (ystarCol st.fitted st.resid col)] }

/-- The permutation loop (`for pid in range(n_perms)`). -/
def permLoop {n : ℕ} (s : ℚ → ℚ) (st : PermLoopState n)
    (cols : List (List ℕ)) : PermLoopState n :=
  cols.foldl (permStep s) st

/-- The state of `run_reg_perms` just before the loop: reduced model
fitted once (fitted values and residuals), full design built once,
`XtX_inv` precomputed once, `t_stars` seeded with the observed `t0`. -/
def initPermState {n : ℕ} (s : ℚ → ℚ) (d : DataSet n) : PermLoopState n :=
  let Xr := designReduced d
  let betaR := olsBeta Xr d.ss
  let fitted := Xr *ᵥ betaR
  let Xf := designFull d
  { dat := d
    Xf := Xf
    G := invQ (Xfᵀ * Xf)
    fitted := fitted
    resid := fun i => d.ss i - fitted i
    tStars := [olsTStat s Xf tpIdx d.ss] }

/-- `partial_r2 = (reduced_model.ssr - full_model.ssr) / reduced_model.ssr`
computed on the original data, shared by both procedures. -/
def partialR2 {n : ℕ} (d : DataSet n) : ℚ :=
  (ssrOf (designReduced d) d.ss - ssrOf (designFull d) d.ss) /
    ssrOf (designReduced d) d.ss

/-- Centered total sum of squares of the response, the denominator of the
statsmodels `rsquared`. -/
def tssOf {n : ℕ} (y : Fin n → ℚ) : ℚ :=
  ∑ i, (y i - (∑ j, y j) / (n : ℚ)) ^ 2

/-- `full_model.rsquared = 1 - RSS/TSS`. -/
def fullR2 {n : ℕ} (d : DataSet n) : ℚ :=
  1 - ssrOf (designFull d) d.ss / tssOf d.ss

/-- The result record of `run_reg_perms` (string metadata omitted),
together with the internal `t_stars` distribution. -/
structure PermResult where
  t : ℚ
  full_r2 : ℚ
  pr2 : ℚ
  perm_p : ℚ
  tStars : List ℚ

/-- Everything `run_reg_perms` computes once the index set has been
accepted: the fits, the loop, and the empirical two-sided p-value
`np.mean(np.abs(t_stars) >= np.abs(t0))`. -/
def permCore {n : ℕ} (s : ℚ → ℚ) (d : DataSet n) (cols : List (List ℕ)) :
    PermResult :=
  let t0 := olsTStat s (designFull d) tpIdx d.ss
  let st := permLoop s (initPermState s d) cols
  { t := t0
    full_r2 := fullR2 d
    pr2 := partialR2 d
    perm_p :=
      (st.tStars.map (fun x => if |t0| ≤ |x| then (1 : ℚ) else 0)).sum /
        (st.tStars.length : ℚ)
    tStars := st.tStars }

/-- `run_reg_perms` (nonparam.py lines 35-90): either the first numpy
error raised inside the loop, or the full result record. -/
def run_reg_perms {n : ℕ} (s : ℚ → ℚ) (d : DataSet n)
    (cols : List (List ℕ)) : Except PermError PermResult :=
  match firstColError n cols with
  | some e => Except.error e
  | none => Except.ok (permCore s d cols)

/-- `DataFrame.loc` label resolution: the first row whose pandas index
label equals `l` (`none` models the `KeyError` raised when the label is
absent; datasets handed to the engine carry unique labels, so the first
match is the match). -/
def lookupRow {n : ℕ} (d : DataSet n) (l : ℤ) : Option (Fin n) :=
  (List.finRange n).find? (fun i => decide (d.ids i = l))

/-- `X.loc[boot_idx]`: the submatrix whose rows are the resolved rows of
one bootstrap column, in column order, duplicates repeated. -/
def selectMatrix {n p : ℕ} (X : Matrix (Fin n) (Fin p) ℚ)
    (r : List (Fin n)) : Matrix (Fin r.length) (Fin p) ℚ :=
  Matrix.of fun i j => X (r.get i) j

/-- `y.loc[boot_idx]`: the response restricted to the resolved rows of one
bootstrap column. -/
def selectVec {n : ℕ} (y : Fin n → ℚ) (r : List (Fin n)) :
    Fin r.length → ℚ := fun i => y (r.get i)

/-- Bootstrap partial R-squared of one resample: refit both reduced and
full models on the selected rows. -/
def bootPr2 {n : ℕ} (Xr : Matrix (Fin n) (Fin 6) ℚ)
    (Xf : Matrix (Fin n) (Fin 7) ℚ) (y : Fin n → ℚ) (r : List (Fin n)) : ℚ :=
  (ssrOf (selectMatrix Xr r) (selectVec y r) -
      ssrOf (selectMatrix Xf r) (selectVec y r)) /
    ssrOf (selectMatrix Xr r) (selectVec y r)

/-- The state threaded through the bootstrap loop: the shared dataset and
the two design matrices built once by patsy (read-only), and the two
growing arrays of bootstrap statistics. -/
structure BootLoopState (n : ℕ) where
  dat : DataSet n
  Xr : Matrix (Fin n) (Fin 6) ℚ
  Xf : Matrix (Fin n) (Fin 7) ℚ
  bootTs : List ℚ
  bootPr2s : List ℚ

/-- One iteration of the bootstrap loop (`for bid in range(n_boots)`):
select the rows of the resolved column from the design matrices and the
response, refit both models from scratch, append the t-statistic and the
partial R-squared.  Nothing else in the state is written. -/
def bootStep {n : ℕ} (s : ℚ → ℚ) (st : BootLoopState n)
    (r : List (Fin n)) : BootLoopState n :=
  { st with
    bootTs := st.bootTs ++
      [olsTStat s (selectMatrix st.Xf r) tpIdx (selectVec st.dat.ss r)]
    bootPr2s := st.bootPr2s ++ [bootPr2 st.Xr st.Xf st.dat.ss r] }

/-- The bootstrap loop. -/
def bootLoop {n : ℕ} (s : ℚ → ℚ) (st : BootLoopState n)
    (rows : List (List (Fin n))) : BootLoopState n :=
  rows.foldl (bootStep s) st

/-- The state of `run_reg_boots` just before the loop: design matrices
built once, both original models fitted once, the two arrays seeded with
the observed `t0` and partial R-squared. -/
def initBootState {n : ℕ} (s : ℚ → ℚ) (d : DataSet n) : BootLoopState n :=
  { dat := d
    Xr := designReduced d
    Xf := designFull d
    bootTs := [olsTStat s (designFull d) tpIdx d.ss]
    bootPr2s := [partialR2 d] }

/-- The linear-interpolation step of `np.quantile` at fractional position
`h` into the sorted array `l` (the default interpolation: value between
the floor index and the next index, clamped at the last element). -/
def interpAt (l : List ℚ) (h : ℚ) : ℚ :=
  let i := min ⌊h⌋₊ (l.length - 1)
  let j := min (i + 1) (l.length - 1)
  l.getD i 0 + (h - (i : ℚ)) * (l.getD j 0 - l.getD i 0)

/-- `np.quantile(xs, q)` with the default linear interpolation: sort, then
interpolate at `h = q*(len-1)`. -/
def quantileQ (xs : List ℚ) (q : ℚ) : ℚ :=
  interpAt (xs.insertionSort (· ≤ ·)) (q * ((xs.length : ℚ) - 1))

/-- `np.mean`. -/
def meanOf (l : List ℚ) : ℚ := l.sum / (l.length : ℚ)

/-- The variance `np.std(l)**2` (population variance, `ddof=0`); `np.std`
itself is the abstract square root applied to it. -/
def varOf (l : List ℚ) : ℚ :=
  (l.map (fun x => (x - meanOf l) ^ 2)).sum / (l.length : ℚ)

/-- The result record of `run_reg_boots` (string metadata omitted),
together with the two internal bootstrap distributions. -/
structure BootResult where
  t : ℚ
  full_r2 : ℚ
  pr2 : ℚ
  boot_t_mean : ℚ
  boot_t_std : ℚ
  boot_t_005 : ℚ
  boot_t_025 : ℚ
  boot_t_975 : ℚ
  boot_t_995 : ℚ
  boot_pr2_mean : ℚ
  boot_pr2_std : ℚ
  boot_pr2_005 : ℚ
  boot_pr2_025 : ℚ
  boot_pr2_975 : ℚ
  boot_pr2_995 : ℚ
  bootTs : List ℚ
  bootPr2s : List ℚ

/-- Everything `run_reg_boots` computes once every label of the index set
has been resolved to a row: the original fits, the loop, and the
mean/std/quantile summaries of the two bootstrap distributions. -/
def bootCore {n : ℕ} (s : ℚ → ℚ) (d : DataSet n)
    (rows : List (List (Fin n))) : BootResult :=
  let st := bootLoop s (initBootState s d) rows
  { t := olsTStat s (designFull d) tpIdx d.ss
    full_r2 := fullR2 d
    pr2 := partialR2 d
    boot_t_mean := meanOf st.bootTs
    boot_t_std := s (varOf st.bootTs)
    boot_t_005 := quantileQ st.bootTs (5 / 1000)
    boot_t_025 := quantileQ st.bootTs (25 / 1000)
    boot_t_975 := quantileQ st.bootTs (975 / 1000)
    boot_t_995 := quantileQ st.bootTs (995 / 1000)
    boot_pr2_mean := meanOf st.bootPr2s
    boot_pr2_std := s (varOf st.bootPr2s)
    boot_pr2_005 := quantileQ st.bootPr2s (5 / 1000)
    boot_pr2_025 := quantileQ st.bootPr2s (25 / 1000)
    boot_pr2_975 := quantileQ st.bootPr2s (975 / 1000)
    boot_pr2_995 := quantileQ st.bootPr2s (995 / 1000)
    bootTs := st.bootTs
    bootPr2s := st.bootPr2s }

/-- The error that can escape the bootstrap procedure: the pandas
`KeyError` raised by `.loc` on a label absent from the index. -/
inductive BootError where
  | unknownLabel
deriving DecidableEq

/-- Resolve one bootstrap column of labels through the pandas index
(`none` models the `KeyError` of `.loc` on a missing label). -/
def resolveCol {n : ℕ} (d : DataSet n) : List ℤ → Option (List (Fin n))
  | [] => some []
  | l :: t =>
    match lookupRow d l, resolveCol d t with
    | some i, some r => some (i :: r)
    | _, _ => none

/-- Resolve every bootstrap column of the index set. -/
def resolveCols {n : ℕ} (d : DataSet n) :
    List (List ℤ) → Option (List (List (Fin n)))
  | [] => some []
  | c :: t =>
    match resolveCol d c, resolveCols d t with
    | some r, some rs => some (r :: rs)
    | _, _ => none

/-- `run_reg_boots` (nonparam.py lines 140-202): resolve every bootstrap
label through the pandas index; a missing label raises, otherwise the
loop runs and the summary record is returned. -/
def run_reg_boots {n : ℕ} (s : ℚ → ℚ) (d : DataSet n)
    (cols : List (List ℤ)) : Except BootError BootResult :=
  match resolveCols d cols with
  | none => Except.error BootError.unknownLabel
  | some rows => Except.ok (bootCore s d rows)

/-- A concrete eight-row dataset whose seven design columns are mutually
orthogonal Walsh patterns (entries plus or minus one indexed by the bits
of the row number), so both Gram matrices are `8 • 1` and in particular
invertible; `age2` here is just the name of a data column, it need not be
the square of `age`. -/
def d8 : DataSet 8 where
  ids := fun i => (i : ℤ)
  age := fun i => if i.val % 2 = 0 then 1 else -1
  age2 := fun i => if i.val / 2 % 2 = 0 then 1 else -1
  sex := fun i => if i.val / 4 % 2 = 0 then 1 else -1
  tp := fun i =>
    (if i.val % 2 = 0 then (1 : ℚ) else -1) *
      (if i.val / 2 % 2 = 0 then 1 else -1)
  ss := fun i => if i.val = 0 then 1 else 0

/-- Replace the dataset's row identifiers (pandas index relabeling); the
columns and the row order are untouched. -/
def relabel {n : ℕ} (φ : ℤ → ℤ) (d : DataSet n) : DataSet n :=
  { d with ids := fun i => φ (d.ids i) }

/-- The synthetic response of one permutation column expressed directly
in terms of the dataset: reduced-model fitted values plus positionally
permuted reduced-model residuals. -/
def permYstar {n : ℕ} (d : DataSet n) (col : List ℕ) : Fin n → ℚ :=
  ystarCol (designReduced d *ᵥ olsBeta (designReduced d) d.ss)
    (fun i => d.ss i - (designReduced d *ᵥ olsBeta (designReduced d) d.ss) i)
    col

/-- A one-row dataset, used to exercise the engine on concrete input. -/
def d1 : DataSet 1 where
  ids := fun _ => 5
  age := fun _ => 1
  age2 := fun _ => 2
  sex := fun _ => 3
  tp := fun _ => 4
  ss := fun _ => 6

/-- A two-row dataset with non-contiguous identifiers 3 and 7, used to
exercise the engine on concrete input. -/
def d2 : DataSet 2 where
  ids := fun i => if i.val = 0 then 3 else 7
  age := fun i => if i.val = 0 then 1 else 2
  age2 := fun i => if i.val = 0 then 4 else 5
  sex := fun i => if i.val = 0 then 0 else 1
  tp := fun i => if i.val = 0 then 2 else 3
  ss := fun i => if i.val = 0 then 1 else 6

lemma mul_invQ {k : ℕ} (A : Matrix (Fin k) (Fin k) ℚ) (h : A.det ≠ 0) :
    A * invQ A = 1 := by
  rw [invQ, Matrix.mul_smul, Matrix.mul_adjugate, smul_smul,
    inv_mul_cancel₀ h, one_smul]

/-- Reusing the precomputed inverse in the loop body is the same
computation as a fresh OLS refit on the unchanged design. -/
lemma permTStar_invQ {n p : ℕ} (s : ℚ → ℚ) (X : Matrix (Fin n) (Fin p) ℚ)
    (j : Fin p) (y : Fin n → ℚ) :
    permTStar s X (invQ (Xᵀ * X)) j y = olsTStat s X j y := rfl

lemma permLoop_dat {n : ℕ} (s : ℚ → ℚ) (cols : List (List ℕ)) :
    ∀ st : PermLoopState n, (permLoop s st cols).dat = st.dat := by
  induction cols with
  | nil => intro st; rfl
  | cons c cs ih => intro st; exact ih (permStep s st c)

lemma permLoop_Xf {n : ℕ} (s : ℚ → ℚ) (cols : List (List ℕ)) :
    ∀ st : PermLoopState n, (permLoop s st cols).Xf = st.Xf := by
  induction cols with
  | nil => intro st; rfl
  | cons c cs ih => intro st; exact ih (permStep s st c)

lemma permLoop_G {n : ℕ} (s : ℚ → ℚ) (cols : List (List ℕ)) :
    ∀ st : PermLoopState n, (permLoop s st cols).G = st.G := by
  induction cols with
  | nil => intro st; rfl
  | cons c cs ih => intro st; exact ih (permStep s st c)

lemma permLoop_fitted {n : ℕ} (s : ℚ → ℚ) (cols : List (List ℕ)) :
    ∀ st : PermLoopState n, (permLoop s st cols).fitted = st.fitted := by
  induction cols with
  | nil => intro st; rfl
  | cons c cs ih => intro st; exact ih (permStep s st c)

lemma permLoop_resid {n : ℕ} (s : ℚ → ℚ) (cols : List (List ℕ)) :
    ∀ st : PermLoopState n, (permLoop s st cols).resid = st.resid := by
  induction cols with
  | nil => intro st; rfl
  | cons c cs ih => intro st; exact ih (permStep s st c)

/-- The permutation loop appends exactly one shortcut statistic per
column, computed from the (unchanged) initial matrices. -/
lemma permLoop_tStars {n : ℕ} (s : ℚ → ℚ) (cols : List (List ℕ)) :
    ∀ st : PermLoopState n,
      (permLoop s st cols).tStars = st.tStars ++ cols.map
        (fun c => permTStar s st.Xf st.G tpIdx
          (ystarCol st.fitted st.resid c)) := by
  induction cols with
  | nil => intro st; simp [permLoop]
  | cons c cs ih =>
    intro st
    show (permLoop s (permStep s st c) cs).tStars = _
    rw [ih (permStep s st c)]
    show (st.tStars ++ [_]) ++ _ = _
    rw [List.append_assoc]
    rfl

lemma bootLoop_dat {n : ℕ} (s : ℚ → ℚ) (rows : List (List (Fin n))) :
    ∀ st : BootLoopState n, (bootLoop s st rows).dat = st.dat := by
  induction rows with
  | nil => intro st; rfl
  | cons r rs ih => intro st; exact ih (bootStep s st r)

lemma bootLoop_Xr {n : ℕ} (s : ℚ → ℚ) (rows : List (List (Fin n))) :
    ∀ st : BootLoopState n, (bootLoop s st rows).Xr = st.Xr := by
  induction rows with
  | nil => intro st; rfl
  | cons r rs ih => intro st; exact ih (bootStep s st r)

lemma bootLoop_Xf {n : ℕ} (s : ℚ → ℚ) (rows : List (List (Fin n))) :
    ∀ st : BootLoopState n, (bootLoop s st rows).Xf = st.Xf := by
  induction rows with
  | nil => intro st; rfl
  | cons r rs ih => intro st; exact ih (bootStep s st r)

/-- The bootstrap loop appends exactly one refit statistic per resolved
column. -/
lemma bootLoop_bootTs {n : ℕ} (s : ℚ → ℚ) (rows : List (List (Fin n))) :
    ∀ st : BootLoopState n,
      (bootLoop s st rows).bootTs = st.bootTs ++ rows.map
        (fun r => olsTStat s (selectMatrix st.Xf r) tpIdx
          (selectVec st.dat.ss r)) := by
  induction rows with
  | nil => intro st; simp [bootLoop]
  | cons r rs ih =>
    intro st
    show (bootLoop s (bootStep s st r) rs).bootTs = _
    rw [ih (bootStep s st r)]
    show (st.bootTs ++ [_]) ++ _ = _
    rw [List.append_assoc]
    rfl

/-- The bootstrap loop appends exactly one partial R-squared per resolved
column. -/
lemma bootLoop_bootPr2s {n : ℕ} (s : ℚ → ℚ) (rows : List (List (Fin n))) :
    ∀ st : BootLoopState n,
      (bootLoop s st rows).bootPr2s = st.bootPr2s ++ rows.map
        (fun r => bootPr2 st.Xr st.Xf st.dat.ss r) := by
  induction rows with
  | nil => intro st; simp [bootLoop]
  | cons r rs ih =>
    intro st
    show (bootLoop s (bootStep s st r) rs).bootPr2s = _
    rw [ih (bootStep s st r)]
    show (st.bootPr2s ++ [_]) ++ _ = _
    rw [List.append_assoc]
    rfl

/-- `np.mean` of the boolean comparison array is the satisfying count over
the list length. -/
lemma sum_indicator_eq_countP (t0 : ℚ) (l : List ℚ) :
    (l.map (fun x => if |t0| ≤ |x| then (1 : ℚ) else 0)).sum =
      (l.countP (fun x => decide (|t0| ≤ |x|)) : ℚ) := by
  induction l with
  | nil => simp
  | cons a l ih =>
    by_cases h : |t0| ≤ |a|
    · simp only [List.map_cons, List.sum_cons, List.countP_cons, h, if_true,
        ih, decide_eq_true_eq]
      push_cast
      ring
    · simp [List.countP_cons, h, ih]

lemma val6_0 : ((0 : Fin 6) : ℕ) = 0 := rfl
lemma val6_1 : ((1 : Fin 6) : ℕ) = 1 := rfl
lemma val6_2 : ((2 : Fin 6) : ℕ) = 2 := rfl
lemma val6_3 : ((3 : Fin 6) : ℕ) = 3 := rfl
lemma val6_4 : ((4 : Fin 6) : ℕ) = 4 := rfl
lemma val6_5 : ((5 : Fin 6) : ℕ) = 5 := rfl
lemma val7_0 : ((0 : Fin 7) : ℕ) = 0 := rfl
lemma val7_1 : ((1 : Fin 7) : ℕ) = 1 := rfl
lemma val7_2 : ((2 : Fin 7) : ℕ) = 2 := rfl
lemma val7_3 : ((3 : Fin 7) : ℕ) = 3 := rfl
lemma val7_4 : ((4 : Fin 7) : ℕ) = 4 := rfl
lemma val7_5 : ((5 : Fin 7) : ℕ) = 5 := rfl
lemma val7_6 : ((6 : Fin 7) : ℕ) = 6 := rfl
lemma val8_0 : ((0 : Fin 8) : ℕ) = 0 := rfl
lemma val8_1 : ((1 : Fin 8) : ℕ) = 1 := rfl
lemma val8_2 : ((2 : Fin 8) : ℕ) = 2 := rfl
lemma val8_3 : ((3 : Fin 8) : ℕ) = 3 := rfl
lemma val8_4 : ((4 : Fin 8) : ℕ) = 4 := rfl
lemma val8_5 : ((5 : Fin 8) : ℕ) = 5 := rfl
lemma val8_6 : ((6 : Fin 8) : ℕ) = 6 := rfl
lemma val8_7 : ((7 : Fin 8) : ℕ) = 7 := rfl

set_option maxHeartbeats 2000000 in
lemma gramFull_d8 : (designFull d8)ᵀ * designFull d8 = (8 : ℚ) • 1 := by
  ext i j
  rw [Matrix.mul_apply, Fin.sum_univ_eight]
  simp only [designFull, d8, Matrix.transpose_apply, Matrix.of_apply,
    Matrix.smul_apply, Matrix.one_apply, smul_eq_mul, val8_0, val8_1, val8_2,
    val8_3, val8_4, val8_5, val8_6, val8_7]
  fin_cases i <;> fin_cases j <;>
    norm_num [Fin.ext_iff, val7_0, val7_1, val7_2, val7_3, val7_4, val7_5,
      val7_6]

set_option maxHeartbeats 2000000 in
lemma gramReduced_d8 :
    (designReduced d8)ᵀ * designReduced d8 = (8 : ℚ) • 1 := by
  ext i j
  rw [Matrix.mul_apply, Fin.sum_univ_eight]
  simp only [designReduced, d8, Matrix.transpose_apply, Matrix.of_apply,
    Matrix.smul_apply, Matrix.one_apply, smul_eq_mul, val8_0, val8_1, val8_2,
    val8_3, val8_4, val8_5, val8_6, val8_7]
  fin_cases i <;> fin_cases j <;>
    norm_num [Fin.ext_iff, val6_0, val6_1, val6_2, val6_3, val6_4, val6_5]

lemma detGramFull_d8 : ((designFull d8)ᵀ * designFull d8).det ≠ 0 := by
  rw [gramFull_d8, Matrix.det_smul, Matrix.det_one]
  norm_num

lemma detGramReduced_d8 : ((designReduced d8)ᵀ * designReduced d8).det ≠ 0 := by
  rw [gramReduced_d8, Matrix.det_smul, Matrix.det_one]
  norm_num

lemma rss_nonneg {n p : ℕ} (X : Matrix (Fin n) (Fin p) ℚ) (y : Fin n → ℚ)
    (b : Fin p → ℚ) : 0 ≤ rss X y b :=
  Finset.sum_nonneg fun i _ => sq_nonneg _

/-- When the Gram matrix is invertible the estimate `β = (XᵀX)⁻¹Xᵀy`
satisfies the normal equations. -/
lemma normalEquations {n p : ℕ} (X : Matrix (Fin n) (Fin p) ℚ)
    (y : Fin n → ℚ) (hdet : (Xᵀ * X).det ≠ 0) :
    Xᵀ *ᵥ (y - X *ᵥ olsBeta X y) = 0 := by
  rw [Matrix.mulVec_sub, Matrix.mulVec_mulVec, olsBeta,
    Matrix.mulVec_mulVec, mul_invQ _ hdet, Matrix.one_mulVec, sub_self]

/-- OLS optimality: with an invertible Gram matrix, `olsBeta` minimises
the residual sum of squares over all coefficient vectors. -/
lemma rss_olsBeta_le {n p : ℕ} (X : Matrix (Fin n) (Fin p) ℚ)
    (y : Fin n → ℚ) (hdet : (Xᵀ * X).det ≠ 0) (b : Fin p → ℚ) :
    rss X y (olsBeta X y) ≤ rss X y b := by
  set β := olsBeta X y with hb
  have hnorm : Xᵀ *ᵥ (y - X *ᵥ β) = 0 := normalEquations X y hdet
  have hcross : ∑ i, (y i - (X *ᵥ β) i) * (X *ᵥ (β - b)) i = 0 := by
    have hdot : (y - X *ᵥ β) ⬝ᵥ (X *ᵥ (β - b)) = 0 := by
      rw [Matrix.dotProduct_mulVec, ← Matrix.mulVec_transpose, hnorm,
        Matrix.zero_dotProduct]
    simpa [Matrix.dotProduct, Pi.sub_apply] using hdot
  have expand : ∀ i, (y i - (X *ᵥ b) i) ^ 2 =
      (y i - (X *ᵥ β) i) ^ 2 + ((X *ᵥ (β - b)) i) ^ 2 +
        2 * ((y i - (X *ᵥ β) i) * (X *ᵥ (β - b)) i) := by
    intro i
    have hi : (X *ᵥ (β - b)) i = (X *ᵥ β) i - (X *ᵥ b) i := by
      rw [Matrix.mulVec_sub, Pi.sub_apply]
    rw [hi]; ring
  have htotal : rss X y b =
      rss X y β + ∑ i, ((X *ᵥ (β - b)) i) ^ 2 := by
    rw [rss, rss, Finset.sum_congr rfl fun i _ => expand i,
      Finset.sum_add_distrib, Finset.sum_add_distrib, ← Finset.mul_sum,
      hcross]
    ring
  rw [htotal]
  exact le_add_of_nonneg_right (Finset.sum_nonneg fun i _ => sq_nonneg _)

/-- The full design restricted to its first six columns is the reduced
design. -/
lemma designFull_castSucc {n : ℕ} (d : DataSet n) (i : Fin n) (j : Fin 6) :
    designFull d i (Fin.castSucc j) = designReduced d i j := by
  fin_cases j <;> rfl

/-- Acting with the full design on a reduced coefficient vector extended
by a zero test coefficient is acting with the reduced design. -/
lemma designFull_mulVec_snoc {n : ℕ} (d : DataSet n) (br : Fin 6 → ℚ) :
    designFull d *ᵥ Fin.snoc br 0 = designReduced d *ᵥ br := by
  funext i
  rw [Matrix.mulVec, Matrix.mulVec, Matrix.dotProduct, Matrix.dotProduct,
    Fin.sum_univ_castSucc]
  simp only [Fin.snoc_last, Fin.snoc_castSucc, mul_zero, add_zero]
  exact Finset.sum_congr rfl fun j _ => by rw [designFull_castSucc]

/-- Adding the test predictor can not increase the residual sum of
squares. -/
lemma ssrOf_full_le_reduced {n : ℕ} (d : DataSet n)
    (hdet : ((designFull d)ᵀ * designFull d).det ≠ 0) :
    ssrOf (designFull d) d.ss ≤ ssrOf (designReduced d) d.ss := by
  calc ssrOf (designFull d) d.ss
      ≤ rss (designFull d) d.ss
          (Fin.snoc (olsBeta (designReduced d) d.ss) 0) :=
        rss_olsBeta_le _ _ hdet _
    _ = ssrOf (designReduced d) d.ss := by
        rw [ssrOf, rss, rss]
        exact Finset.sum_congr rfl fun i _ => by
          rw [designFull_mulVec_snoc]

/-- Non-negativity of the shared partial R-squared under an invertible
full Gram matrix. -/
lemma partialR2_nonneg {n : ℕ} (d : DataSet n)
    (hdet : ((designFull d)ᵀ * designFull d).det ≠ 0) :
    0 ≤ partialR2 d :=
  div_nonneg (sub_nonneg.2 (ssrOf_full_le_reduced d hdet))
    (rss_nonneg _ _ _)

lemma sorted_getD_le (l : List ℚ) (hl : l.Sorted (· ≤ ·)) {i j : ℕ}
    (hij : i ≤ j) (hj : j < l.length) : l.getD i 0 ≤ l.getD j 0 := by
  have hi : i < l.length := lt_of_le_of_lt hij hj
  rw [List.getD_eq_get l 0 hi, List.getD_eq_get l 0 hj]
  exact hl.rel_get_of_le (Fin.mk_le_mk.mpr hij)

/-- The linear-interpolation step is monotone in the fractional position,
for a sorted table: the `np.quantile` kernel is monotone. -/
lemma interpAt_mono (l : List ℚ) (hl : l.Sorted (· ≤ ·)) {h h' : ℚ}
    (h0 : 0 ≤ h) (hhh : h ≤ h') : interpAt l h ≤ interpAt l h' := by
  rcases Nat.eq_zero_or_pos l.length with hm0 | hm0
  · rw [List.length_eq_zero] at hm0
    subst hm0
    simp [interpAt]
  have key : ∀ x : ℚ, interpAt l x =
      l.getD (min ⌊x⌋₊ (l.length - 1)) 0 +
        (x - (min ⌊x⌋₊ (l.length - 1) : ℕ)) *
          (l.getD (min (min ⌊x⌋₊ (l.length - 1) + 1) (l.length - 1)) 0 -
            l.getD (min ⌊x⌋₊ (l.length - 1)) 0) := fun x => rfl
  rw [key h, key h']
  set m := l.length with hm
  set i := min ⌊h⌋₊ (m - 1) with hidef
  set i' := min ⌊h'⌋₊ (m - 1) with hi'def
  have hile : i ≤ m - 1 := min_le_right _ _
  have hile' : i' ≤ m - 1 := min_le_right _ _
  have hii' : i ≤ i' := min_le_min (Nat.floor_mono hhh) le_rfl
  rcases eq_or_lt_of_le hii' with heq | hlt
  · rw [← heq]
    rcases lt_or_eq_of_le hile with htop | htop
    · have hup : min (i + 1) (m - 1) = i + 1 := min_eq_left (by omega)
      rw [hup]
      have hD : 0 ≤ l.getD (i + 1) 0 - l.getD i 0 :=
        sub_nonneg.2 (sorted_getD_le l hl (Nat.le_succ i) (by omega))
      have hw := mul_le_mul_of_nonneg_right (sub_le_sub_right hhh (i : ℚ)) hD
      linarith
    · have hup : min (i + 1) (m - 1) = i := by omega
      rw [hup]
      simp
  · have hitop : i < m - 1 := lt_of_lt_of_le hlt hile'
    have hifloor : ⌊h⌋₊ = i := by omega
    have hup : min (i + 1) (m - 1) = i + 1 := min_eq_left (by omega)
    rw [hup]
    have h1m : i + 1 < m := by omega
    have hi'm : i' < m := by omega
    have hstep1 : l.getD i 0 +
        (h - (i : ℚ)) * (l.getD (i + 1) 0 - l.getD i 0) ≤
          l.getD (i + 1) 0 := by
      have hD : 0 ≤ l.getD (i + 1) 0 - l.getD i 0 :=
        sub_nonneg.2 (sorted_getD_le l hl (Nat.le_succ i) h1m)
      have ht1 : h - (i : ℚ) ≤ 1 := by
        have hfl := Nat.lt_floor_add_one h
        rw [hifloor] at hfl
        linarith
      nlinarith [mul_nonneg (sub_nonneg.2 ht1) hD]
    have hstep2 : l.getD (i + 1) 0 ≤ l.getD i' 0 :=
      sorted_getD_le l hl (by omega) hi'm
    have hstep3 : l.getD i' 0 ≤ l.getD i' 0 +
        (h' - (i' : ℚ)) *
          (l.getD (min (i' + 1) (m - 1)) 0 - l.getD i' 0) := by
      rcases lt_or_eq_of_le hile' with htop' | htop'
      · have hup' : min (i' + 1) (m - 1) = i' + 1 := min_eq_left (by omega)
        rw [hup']
        have hD : 0 ≤ l.getD (i' + 1) 0 - l.getD i' 0 :=
          sub_nonneg.2 (sorted_getD_le l hl (Nat.le_succ i') (by omega))
        have hw : 0 ≤ h' - (i' : ℚ) := by
          have hle1 : i' ≤ ⌊h'⌋₊ := min_le_left _ _
          have hle2 : (⌊h'⌋₊ : ℚ) ≤ h' := Nat.floor_le (le_trans h0 hhh)
          have hle3 : (i' : ℚ) ≤ (⌊h'⌋₊ : ℚ) := by exact_mod_cast hle1
          linarith
        nlinarith [mul_nonneg hw hD]
      · have hup' : min (i' + 1) (m - 1) = i' := by omega
        rw [hup']
        simp
    linarith

/-- `np.quantile` is monotone in the probability argument. -/
lemma quantileQ_mono (xs : List ℚ) {q q' : ℚ} (hq : 0 ≤ q) (hqq : q ≤ q')
    (hne : xs ≠ []) : quantileQ xs q ≤ quantileQ xs q' := by
  have hs : (xs.insertionSort (· ≤ ·)).Sorted (· ≤ ·) :=
    List.sorted_insertionSort _ _
  have hlpos : (0 : ℚ) ≤ (xs.length : ℚ) - 1 := by
    have h1 : 1 ≤ xs.length := List.length_pos.2 hne
    have h2 : (1 : ℚ) ≤ (xs.length : ℚ) := by exact_mod_cast h1
    linarith
  exact interpAt_mono _ hs (mul_nonneg hq hlpos)
    (mul_le_mul_of_nonneg_right hqq hlpos)

lemma lookupRow_relabel {n : ℕ} (φ : ℤ → ℤ) (hφ : Function.Injective φ)
    (d : DataSet n) (l : ℤ) :
    lookupRow (relabel φ d) (φ l) = lookupRow d l := by
  unfold lookupRow relabel
  congr 1
  funext i
  exact decide_eq_decide.mpr hφ.eq_iff

lemma resolveCol_relabel {n : ℕ} (φ : ℤ → ℤ)
    (hφ : Function.Injective φ) (d : DataSet n) (col : List ℤ) :
    resolveCol (relabel φ d) (col.map φ) = resolveCol d col := by
  induction col with
  | nil => rfl
  | cons a t ih => simp [resolveCol, lookupRow_relabel φ hφ d, ih]

lemma resolveCols_relabel {n : ℕ} (φ : ℤ → ℤ)
    (hφ : Function.Injective φ) (d : DataSet n) (cols : List (List ℤ)) :
    resolveCols (relabel φ d) (cols.map (List.map φ)) = resolveCols d cols := by
  induction cols with
  | nil => rfl
  | cons c t ih => simp [resolveCols, resolveCol_relabel φ hφ d, ih]

lemma permCore_relabel {n : ℕ} (φ : ℤ → ℤ) (s : ℚ → ℚ) (d : DataSet n)
    (cols : List (List ℕ)) :
    permCore s (relabel φ d) cols = permCore s d cols := by
  have h1 : (permLoop s (initPermState s (relabel φ d)) cols).tStars =
      (permLoop s (initPermState s d) cols).tStars := by
    rw [permLoop_tStars, permLoop_tStars]
    rfl
  simp only [permCore]
  rw [h1]
  rfl

lemma bootCore_relabel {n : ℕ} (φ : ℤ → ℤ) (s : ℚ → ℚ) (d : DataSet n)
    (rows : List (List (Fin n))) :
    bootCore s (relabel φ d) rows = bootCore s d rows := by
  have h1 : (bootLoop s (initBootState s (relabel φ d)) rows).bootTs =
      (bootLoop s (initBootState s d) rows).bootTs := by
    rw [bootLoop_bootTs, bootLoop_bootTs]
    rfl
  have h2 : (bootLoop s (initBootState s (relabel φ d)) rows).bootPr2s =
      (bootLoop s (initBootState s d) rows).bootPr2s := by
    rw [bootLoop_bootPr2s, bootLoop_bootPr2s]
    rfl
  simp only [bootCore]
  rw [h1, h2]
  rfl

lemma permCore_tStars (s : ℚ → ℚ) {n : ℕ} (d : DataSet n)
    (cols : List (List ℕ)) :
    (permCore s d cols).tStars =
      olsTStat s (designFull d) tpIdx d.ss ::
        cols.map (fun c =>
          permTStar s (designFull d) (invQ ((designFull d)ᵀ * designFull d))
            tpIdx (permYstar d c)) := by
  show (permLoop s (initPermState s d) cols).tStars = _
  rw [permLoop_tStars]
  rfl

lemma bootCore_bootTs (s : ℚ → ℚ) {n : ℕ} (d : DataSet n)
    (rows : List (List (Fin n))) :
    (bootCore s d rows).bootTs =
      olsTStat s (designFull d) tpIdx d.ss ::
        rows.map (fun r =>
          olsTStat s (selectMatrix (designFull d) r) tpIdx
            (selectVec d.ss r)) := by
  show (bootLoop s (initBootState s d) rows).bootTs = _
  rw [bootLoop_bootTs]
  rfl

lemma bootCore_bootPr2s (s : ℚ → ℚ) {n : ℕ} (d : DataSet n)
    (rows : List (List (Fin n))) :
    (bootCore s d rows).bootPr2s =
      partialR2 d ::
        rows.map (fun r => bootPr2 (designReduced d) (designFull d) d.ss r) := by
  show (bootLoop s (initBootState s d) rows).bootPr2s = _
  rw [bootLoop_bootPr2s]
  rfl

lemma permCore_perm_p (s : ℚ → ℚ) {n : ℕ} (d : DataSet n)
    (cols : List (List ℕ)) :
    (permCore s d cols).perm_p =
      ((permCore s d cols).tStars.map
          (fun x => if |(permCore s d cols).t| ≤ |x| then (1 : ℚ) else 0)).sum /
        ((permCore s d cols).tStars.length : ℚ) := rfl

lemma indicator_sum_nonneg (t0 : ℚ) (l : List ℚ) :
    0 ≤ (l.map (fun x => if |t0| ≤ |x| then (1 : ℚ) else 0)).sum := by
  induction l with
  | nil => simp
  | cons a t ih =>
    by_cases h : |t0| ≤ |a| <;> simp [h] <;> linarith

lemma indicator_sum_le_length (t0 : ℚ) (l : List ℚ) :
    (l.map (fun x => if |t0| ≤ |x| then (1 : ℚ) else 0)).sum ≤
      (l.length : ℚ) := by
  induction l with
  | nil => simp
  | cons a t ih =>
    by_cases h : |t0| ≤ |a| <;> simp [h] <;> linarith

/-- C2: the statistic that `run_reg_perms` records for each synthetic
response `y* = fitted_reduced + residual_reduced[p]` — computed through
the precomputed `(XᵀX)⁻¹` as `beta = (XᵀX)⁻¹Xᵀy*`, `mse = RSS/(n - p)`,
`se = sqrt(mse * (XᵀX)⁻¹[j,j])` — equals the t-statistic of the test
coefficient of a fresh full OLS refit of that `y*` on the same full
design matrix (and position 0 likewise holds the fresh-fit statistic of
the original response). -/
theorem C2_shortcut_equals_fresh_refit (s : ℚ → ℚ) {n : ℕ} (d : DataSet n)
    (cols : List (List ℕ)) :
    (permCore s d cols).tStars =
      olsTStat s (designFull d) tpIdx d.ss ::
        cols.map (fun c => olsTStat s (designFull d) tpIdx (permYstar d c)) := by
  rw [permCore_tStars]
  exact congrArg _ (List.map_congr_left fun c _ => permTStar_invQ s _ _ _)

/-- C4: for both procedures the internal distribution has length
`n_resamples + 1` and its element at position 0 is the statistic of the
original, unresampled data (the fresh-fit t-statistic, and the original
partial R-squared for the bootstrap's second distribution). -/
theorem C4_distribution_shape (s : ℚ → ℚ) {n : ℕ} (d : DataSet n)
    (cols : List (List ℕ)) (rows : List (List (Fin n))) :
    (permCore s d cols).tStars.length = cols.length + 1 ∧
    (permCore s d cols).tStars.getD 0 0 =
      olsTStat s (designFull d) tpIdx d.ss ∧
    (bootCore s d rows).bootTs.length = rows.length + 1 ∧
    (bootCore s d rows).bootTs.getD 0 0 =
      olsTStat s (designFull d) tpIdx d.ss ∧
    (bootCore s d rows).bootPr2s.length = rows.length + 1 ∧
    (bootCore s d rows).bootPr2s.getD 0 0 = partialR2 d := by
  refine ⟨?_, ?_, ?_, ?_, ?_, ?_⟩ <;>
    simp [permCore_tStars, bootCore_bootTs, bootCore_bootPr2s]

/-- C6: the quantile fields of both bootstrap distributions are ordered
`q0.005 ≤ q0.025 ≤ q0.975 ≤ q0.995`, by monotonicity of the empirical
quantile function in the probability argument. -/
theorem C6_quantiles_ordered (s : ℚ → ℚ) {n : ℕ} (d : DataSet n)
    (rows : List (List (Fin n))) :
    ((bootCore s d rows).boot_t_005 ≤ (bootCore s d rows).boot_t_025 ∧
      (bootCore s d rows).boot_t_025 ≤ (bootCore s d rows).boot_t_975 ∧
      (bootCore s d rows).boot_t_975 ≤ (bootCore s d rows).boot_t_995) ∧
    ((bootCore s d rows).boot_pr2_005 ≤ (bootCore s d rows).boot_pr2_025 ∧
      (bootCore s d rows).boot_pr2_025 ≤ (bootCore s d rows).boot_pr2_975 ∧
      (bootCore s d rows).boot_pr2_975 ≤ (bootCore s d rows).boot_pr2_995) := by
  have hne : (bootCore s d rows).bootTs ≠ [] := by
    rw [bootCore_bootTs]
    exact List.cons_ne_nil _ _
  have hne2 : (bootCore s d rows).bootPr2s ≠ [] := by
    rw [bootCore_bootPr2s]
    exact List.cons_ne_nil _ _
  refine ⟨⟨?_, ?_, ?_⟩, ?_, ?_, ?_⟩
  · exact quantileQ_mono _ (by norm_num) (by norm_num) hne
  · exact quantileQ_mono _ (by norm_num) (by norm_num) hne
  · exact quantileQ_mono _ (by norm_num) (by norm_num) hne
  · exact quantileQ_mono _ (by norm_num) (by norm_num) hne2
  · exact quantileQ_mono _ (by norm_num) (by norm_num) hne2
  · exact quantileQ_mono _ (by norm_num) (by norm_num) hne2

/-- C9: the resampling loops of both procedures never write the shared
dataset or the precomputed matrices: the final loop state carries them
unchanged, so the input dataset is intact when either call returns. -/
theorem C9_dataset_read_only (s : ℚ → ℚ) {n : ℕ} (d : DataSet n)
    (cols : List (List ℕ)) (rows : List (List (Fin n))) :
    (permLoop s (initPermState s d) cols).dat = d ∧
    (permLoop s (initPermState s d) cols).Xf = designFull d ∧
    (permLoop s (initPermState s d) cols).G =
      invQ ((designFull d)ᵀ * designFull d) ∧
    (permLoop s (initPermState s d) cols).fitted =
      (initPermState s d).fitted ∧
    (permLoop s (initPermState s d) cols).resid =
      (initPermState s d).resid ∧
    (bootLoop s (initBootState s d) rows).dat = d ∧
    (bootLoop s (initBootState s d) rows).Xr = designReduced d ∧
    (bootLoop s (initBootState s d) rows).Xf = designFull d :=
  ⟨permLoop_dat s cols _, permLoop_Xf s cols _, permLoop_G s cols _,
    permLoop_fitted s cols _, permLoop_resid s cols _,
    bootLoop_dat s rows _, bootLoop_Xr s rows _, bootLoop_Xf s rows _⟩

/-- C10: the permutation p-value always counts the observed statistic at
position 0, whose comparison with itself always succeeds, so
`1/(n_perms+1) ≤ perm_p ≤ 1` and in particular `perm_p` is never 0. -/
theorem C10_perm_p_bounds (s : ℚ → ℚ) {n : ℕ} (d : DataSet n)
    (cols : List (List ℕ)) :
    0 < (permCore s d cols).perm_p ∧
    1 / ((cols.length : ℚ) + 1) ≤ (permCore s d cols).perm_p ∧
    (permCore s d cols).perm_p ≤ 1 := by
  have ht : (permCore s d cols).t = olsTStat s (designFull d) tpIdx d.ss :=
    rfl
  set t0 := olsTStat s (designFull d) tpIdx d.ss with ht0
  set rest := cols.map (fun c =>
    permTStar s (designFull d) (invQ ((designFull d)ᵀ * designFull d))
      tpIdx (permYstar d c)) with hrest
  have hS0 : 0 ≤ (rest.map (fun x => if |t0| ≤ |x| then (1 : ℚ) else 0)).sum :=
    indicator_sum_nonneg t0 rest
  have hSle : (rest.map (fun x => if |t0| ≤ |x| then (1 : ℚ) else 0)).sum ≤
      (rest.length : ℚ) := indicator_sum_le_length t0 rest
  have hlen : rest.length = cols.length := by
    rw [hrest, List.length_map]
  have hp : (permCore s d cols).perm_p =
      (1 + (rest.map (fun x => if |t0| ≤ |x| then (1 : ℚ) else 0)).sum) /
        ((cols.length : ℚ) + 1) := by
    rw [permCore_perm_p, ht, permCore_tStars, ← ht0, ← hrest]
    rw [List.map_cons, List.sum_cons, if_pos le_rfl, List.length_cons, hlen]
    push_cast
    ring_nf
  have hlenQ : (rest.length : ℚ) = (cols.length : ℚ) := by
    exact_mod_cast congrArg (fun k : ℕ => (k : ℚ)) hlen
  have hd : (0 : ℚ) < (cols.length : ℚ) + 1 := by positivity
  refine ⟨?_, ?_, ?_⟩
  · rw [hp]
    apply div_pos _ hd
    linarith
  · rw [hp]
    gcongr
    linarith
  · rw [hp]
    rw [div_le_one hd]
    linarith [hlenQ ▸ hSle]

/-- C3: whenever the permutation index set is accepted, the call returns,
the returned p-value is the count of `|t*| ≥ |t0|` over the
`n_perms + 1` recorded statistics (the observed one included, at position
0) divided by `n_perms + 1`, and with exactly one permutation column the
p-value is 1/2 or 1. -/
theorem C3_perm_p_is_count_over_nplus1 (s : ℚ → ℚ) {n : ℕ} (d : DataSet n)
    (cols : List (List ℕ)) (h : firstColError n cols = none) :
    run_reg_perms s d cols = Except.ok (permCore s d cols) ∧
    (permCore s d cols).perm_p =
      ((permCore s d cols).tStars.countP
          (fun x => decide (|(permCore s d cols).t| ≤ |x|)) : ℚ) /
        ((cols.length : ℚ) + 1) ∧
    (cols.length = 1 →
      (permCore s d cols).perm_p = 1 / 2 ∨ (permCore s d cols).perm_p = 1) := by
  refine ⟨?_, ?_, ?_⟩
  · unfold run_reg_perms
    rw [h]
  · rw [permCore_perm_p, sum_indicator_eq_countP]
    have hlen : (permCore s d cols).tStars.length = cols.length + 1 := by
      rw [permCore_tStars]
      simp
    rw [hlen]
    push_cast
    rfl
  · intro hc
    obtain ⟨c, rfl⟩ := List.length_eq_one.mp hc
    have ht : (permCore s d [c]).t = olsTStat s (designFull d) tpIdx d.ss :=
      rfl
    rw [permCore_perm_p, ht, permCore_tStars]
    simp only [List.map_cons, List.map_nil, List.sum_cons, List.sum_nil,
      List.length_cons, List.length_nil, if_pos le_rfl]
    by_cases hy : |olsTStat s (designFull d) tpIdx d.ss| ≤
        |permTStar s (designFull d) (invQ ((designFull d)ᵀ * designFull d))
          tpIdx (permYstar d c)|
    · right
      rw [if_pos hy]
      norm_num
    · left
      rw [if_neg hy]
      norm_num

/-- Witness for C3 at a concrete one-row dataset and the single
permutation column `[0]`. -/
theorem C3_witness :
    firstColError 1 [[0]] = none ∧
    (run_reg_perms (fun q => q) d1 [[0]] =
        Except.ok (permCore (fun q => q) d1 [[0]]) ∧
      (permCore (fun q => q) d1 [[0]]).perm_p =
        ((permCore (fun q => q) d1 [[0]]).tStars.countP
            (fun x => decide (|(permCore (fun q => q) d1 [[0]]).t| ≤ |x|)) :
          ℚ) / (((([[0]] : List (List ℕ)).length : ℚ)) + 1) ∧
      (([[0]] : List (List ℕ)).length = 1 →
        (permCore (fun q => q) d1 [[0]]).perm_p = 1 / 2 ∨
          (permCore (fun q => q) d1 [[0]]).perm_p = 1)) :=
  ⟨by decide, C3_perm_p_is_count_over_nplus1 (fun q => q) d1 [[0]] (by decide)⟩

/-- C5: when the reduced and full fits succeed (invertible Gram
matrices), the partial R-squared returned by both procedures, computed as
`(RSS_reduced - RSS_full)/RSS_reduced`, is non-negative: the full
design's column space contains the reduced design's, so adding the test
predictor can not increase the residual sum of squares under OLS. -/
theorem C5_partial_r2_nonneg (s : ℚ → ℚ) {n : ℕ} (d : DataSet n)
    (cols : List (List ℕ)) (rows : List (List (Fin n)))
    (hdr : ((designReduced d)ᵀ * designReduced d).det ≠ 0)
    (hdf : ((designFull d)ᵀ * designFull d).det ≠ 0) :
    0 ≤ (permCore s d cols).pr2 ∧ 0 ≤ (bootCore s d rows).pr2 :=
  ⟨partialR2_nonneg d hdf, partialR2_nonneg d hdf⟩

/-- Witness for C5 at the concrete orthogonal eight-row dataset, whose
Gram matrices are `8 • 1`. -/
theorem C5_witness :
    (((designReduced d8)ᵀ * designReduced d8).det ≠ 0 ∧
      ((designFull d8)ᵀ * designFull d8).det ≠ 0) ∧
    (0 ≤ (permCore (fun q => q) d8 [[0]]).pr2 ∧
      0 ≤ (bootCore (fun q => q) d8 []).pr2) :=
  ⟨⟨detGramReduced_d8, detGramFull_d8⟩,
    C5_partial_r2_nonneg (fun q => q) d8 [[0]] [] detGramReduced_d8
      detGramFull_d8⟩

/-- C1: relabeling the rows by any injective identifier map, with the
bootstrap index sets translated to the new identifier space and the
positional permutation index sets unchanged, leaves the results of both
procedures identical: `run_reg_perms` is purely positional and
`run_reg_boots` selects rows by identifier (duplicates in a bootstrap
column select the same row repeatedly), never by position. -/
theorem C1_row_identifier_invariance {n : ℕ} (φ : ℤ → ℤ)
    (hφ : Function.Injective φ) (s : ℚ → ℚ) (d : DataSet n)
    (pcols : List (List ℕ)) (bcols : List (List ℤ)) :
    run_reg_perms s (relabel φ d) pcols = run_reg_perms s d pcols ∧
    run_reg_boots s (relabel φ d) (bcols.map (List.map φ)) =
      run_reg_boots s d bcols := by
  constructor
  · simp only [run_reg_perms, permCore_relabel]
  · simp only [run_reg_boots, resolveCols_relabel φ hφ, bootCore_relabel]

/-- Witness for C1 at the concrete two-row dataset with identifiers 3 and
7, the shift relabeling, one permutation column and one bootstrap column
with a repeated identifier. -/
theorem C1_witness :
    Function.Injective (fun x : ℤ => x + 1) ∧
    (run_reg_perms (fun q => q) (relabel (fun x => x + 1) d2) [[1, 0]] =
        run_reg_perms (fun q => q) d2 [[1, 0]] ∧
      run_reg_boots (fun q => q) (relabel (fun x => x + 1) d2)
          ([[7, 7]].map (List.map (fun x => x + 1))) =
        run_reg_boots (fun q => q) d2 [[7, 7]]) :=
  ⟨add_left_injective 1,
    C1_row_identifier_invariance (fun x => x + 1) (add_left_injective 1)
      (fun q => q) d2 [[1, 0]] [[7, 7]]⟩

/-- C7 counterexample: the length-2 column `[0, 0]` is made of valid row
positions but is not a bijection on `{0, 1}`, yet `run_reg_perms` on the
two-row dataset returns a result instead of failing with any error. -/
theorem C7_counterexample :
    (run_reg_perms (fun q => q) d2 [[0, 0]]).isOk = true := rfl

/-- C7 amended: `run_reg_perms` performs no validation of its own and no
`ShapeMismatchError` class exists.  A column of in-range positions whose
length matches the dataset is accepted even when it is not a bijection,
and a result is returned; a column whose length can not be broadcast
(neither the row count nor 1) surfaces as the generic numpy broadcast
error; an out-of-range entry surfaces as the generic numpy index error. -/
theorem C7_amended {n : ℕ} (s : ℚ → ℚ) (d : DataSet n)
    (col col2 col3 : List ℕ) (h1 : col.length = n) (h2 : ∀ k ∈ col, k < n)
    (h3 : ¬(col2.length = n ∨ col2.length = 1)) (h4 : ∀ k ∈ col2, k < n)
    (h5 : ∃ k ∈ col3, n ≤ k) :
    run_reg_perms s d [col] = Except.ok (permCore s d [col]) ∧
    run_reg_perms s d [col2] = Except.error PermError.broadcastMismatch ∧
    run_reg_perms s d [col3] = Except.error PermError.indexOOB := by
  have hany : col.any (fun k => decide (n ≤ k)) = false := by
    rw [List.any_eq_false]
    intro k hk
    simpa using Nat.not_le.mpr (h2 k hk)
  have hany2 : col2.any (fun k => decide (n ≤ k)) = false := by
    rw [List.any_eq_false]
    intro k hk
    simpa using Nat.not_le.mpr (h4 k hk)
  have hany3 : col3.any (fun k => decide (n ≤ k)) = true := by
    rw [List.any_eq_true]
    obtain ⟨k, hk, hnk⟩ := h5
    exact ⟨k, hk, by simpa using hnk⟩
  refine ⟨?_, ?_, ?_⟩
  · have hc : colCheck n col = none := by
      unfold colCheck
      rw [hany]
      simp [h1]
    simp [run_reg_perms, firstColError, hc]
  · have hc : colCheck n col2 = some PermError.broadcastMismatch := by
      unfold colCheck
      rw [hany2]
      simp [h3]
    simp [run_reg_perms, firstColError, hc]
  · have hc : colCheck n col3 = some PermError.indexOOB := by
      unfold colCheck
      rw [hany3]
      simp
    simp [run_reg_perms, firstColError, hc]

/-- Witness for C7 at the two-row dataset: the non-bijective column
`[0, 0]`, the wrong-length column `[0, 0, 0]`, and the out-of-range
column `[2, 0]`. -/
theorem C7_witness :
    (([0, 0] : List ℕ).length = 2 ∧ (∀ k ∈ ([0, 0] : List ℕ), k < 2) ∧
      ¬(([0, 0, 0] : List ℕ).length = 2 ∨ ([0, 0, 0] : List ℕ).length = 1) ∧
      (∀ k ∈ ([0, 0, 0] : List ℕ), k < 2) ∧
      (∃ k ∈ ([2, 0] : List ℕ), 2 ≤ k)) ∧
    (run_reg_perms (fun q => q) d2 [[0, 0]] =
        Except.ok (permCore (fun q => q) d2 [[0, 0]]) ∧
      run_reg_perms (fun q => q) d2 [[0, 0, 0]] =
        Except.error PermError.broadcastMismatch ∧
      run_reg_perms (fun q => q) d2 [[2, 0]] =
        Except.error PermError.indexOOB) :=
  ⟨⟨by decide, by decide, by decide, by decide, by decide⟩,
    C7_amended (fun q => q) d2 [0, 0] [0, 0, 0] [2, 0] (by decide)
      (by decide) (by decide) (by decide) (by decide)⟩

/-- C8 counterexample: the two-row dataset has degrees of freedom
`2 - 7 < 0`, yet `run_reg_perms` returns a result record instead of
failing with any error. -/
theorem C8_counterexample :
    (run_reg_perms (fun q => q) d2 []).isOk = true := rfl

/-- C8 amended: no degrees-of-freedom check exists and no
`InsufficientDataError` class exists: a call whose degrees of freedom
`n - 7` are non-positive still returns a result record whenever the
index set is accepted (in the floating-point code the division by the
non-positive degrees of freedom produces non-finite statistics, not an
exception). -/
theorem C8_amended {n : ℕ} (s : ℚ → ℚ) (d : DataSet n)
    (cols : List (List ℕ)) (hdf : n ≤ 7) (h : firstColError n cols = none) :
    run_reg_perms s d cols = Except.ok (permCore s d cols) := by
  unfold run_reg_perms
  rw [h]

/-- Witness for C8 at the two-row dataset with an accepted (empty) index
set. -/
theorem C8_witness :
    (2 ≤ 7 ∧ firstColError 2 [] = none) ∧
    run_reg_perms (fun q => q) d2 [] =
      Except.ok (permCore (fun q => q) d2 []) :=
  ⟨⟨by decide, by decide⟩,
    C8_amended (fun q => q) d2 [] (by decide) (by decide)⟩
